import Mathlib

/-!
A verification development for the wasmfs core of this repository: the
`File`/`Directory` node model with its entry map (`system/lib/wasmfs/file.h`),
and the `SyncToAsync` synchronous-to-asynchronous bridge.

The node graph is embedded shallowly: a `shared_ptr<File>` is identified by
the node's address (a `Nat`), the whole graph is a finite association list
from addresses to node records, and each `Directory::Handle` operation
becomes a function on that state.  C++ `assert` failures and null-pointer
dereferences are modelled by `Option.none` results.
-/

/-- The `FileKind` enum of `File` (`DataFileKind = 0, DirectoryKind, SymlinkKind`). -/
inductive FileKind where
  | dataFile
  | directory
  | symlink
deriving DecidableEq, Repr

/-- A `File` node.  `parent` embeds the `std::weak_ptr<File> parent` member
(`none` when the weak reference is empty or expired); `entries` embeds the
`std::map<std::string, std::shared_ptr<File>> entries` member of `Directory`
as a key-sorted association list of (name, child address) pairs — the list is
empty for non-directories, which have no such member.  `mode`, `ctime`,
`mtime`, `atime` are the metadata fields of `File`. -/
structure FileNode where
  kind : FileKind
  mode : Nat
  ctime : Int
  mtime : Int
  atime : Int
  parent : Option Nat
  entries : List (String × Nat)
deriving DecidableEq, Repr

/-- The node graph: all live nodes, keyed by address. -/
structure FS where
  files : List (Nat × FileNode)
deriving DecidableEq, Repr

/-- Lookup of a node by address (following a `shared_ptr`/`weak_ptr.lock()`). -/
def lookupNode (i : Nat) : List (Nat × FileNode) → Option FileNode
  | [] => none
  | p :: rest => if p.1 = i then some p.2 else lookupNode i rest

/-- Node lookup: `FS.find s i` is the node at address `i`, if live. -/
def FS.find (s : FS) (i : Nat) : Option FileNode := lookupNode i s.files

/-- In-place mutation of the node at address `i` (the effect of writing
through a `shared_ptr<File>` while holding its lock). -/
def updateNode (i : Nat) (f : FileNode → FileNode) :
    List (Nat × FileNode) → List (Nat × FileNode)
  | [] => []
  | p :: rest => if p.1 = i then (p.1, f p.2) :: rest else p :: updateNode i f rest

/-- Lookup in the entry map (`entries.find(name)`): the first (and, on a
sorted duplicate-free list, only) pair whose key is `k`. -/
def mapLookup (k : String) : List (String × Nat) → Option Nat
  | [] => none
  | p :: rest => if p.1 = k then some p.2 else mapLookup k rest

/-- Insert-or-assign on the entry map (`entries[name] = child`).  The
`std::map` keeps its keys in ascending lexicographic order
(`std::less<std::string>`). -/
def mapInsert (k : String) (v : Nat) : List (String × Nat) → List (String × Nat)
  | [] => [(k, v)]
  | p :: rest =>
    if k < p.1 then (k, v) :: p :: rest
    else if k = p.1 then (k, v) :: rest
    else p :: mapInsert k v rest

/-- Erase on the entry map (`entries.erase(name)`): removes the pair with
key `k`, if present. -/
def mapErase (k : String) : List (String × Nat) → List (String × Nat)
  | [] => []
  | p :: rest => if p.1 = k then rest else p :: mapErase k rest

/-- The parent write of `File::Handle::setParent(parent)`:
`file->parent = parent;`. -/
def setParentUpd (par : Option Nat) (f : FileNode) : FileNode := { f with parent := par }

/-- The entry-map write `getDir()->entries[pathName] = inserted;`. -/
def insertEntryUpd (nm : String) (c : Nat) (f : FileNode) : FileNode :=
  { f with entries := mapInsert nm c f.entries }

/-- The entry-map write `getDir()->entries.erase(pathName);`. -/
def eraseEntryUpd (nm : String) (f : FileNode) : FileNode :=
  { f with entries := mapErase nm f.entries }

/-- Embedding of `Directory::Handle::setEntry(pathName, inserted)`:
```
auto lockedInserted = inserted->locked();
getDir()->entries[pathName] = inserted;
assert(!lockedInserted.getParent());
lockedInserted.setParent(file);
```
The whole body runs while the directory's lock and the child's lock are both
held, so it is one atomic step of the state.  `getDir()` is
`cast<Directory>`, whose `assert` requires the node to be a directory; the
`assert(!lockedInserted.getParent())` requires the inserted child to have no
parent.  A failed assert aborts the program, modelled as `none`. -/
def setEntry (s : FS) (d : Nat) (name : String) (c : Nat) : Option FS :=
  match s.find d, s.find c with
  | some dn, some cn =>
    if dn.kind = FileKind.directory then
      if cn.parent = none then
        some ⟨updateNode c (setParentUpd (some d))
               (updateNode d (insertEntryUpd name c) s.files)⟩
      else none
    else none
  | _, _ => none

/-- Embedding of `Directory::Handle::unlinkEntry(pathName)`:
```
auto unlinked = getDir()->entries[pathName]->locked();
unlinked.setParent({});
getDir()->entries.erase(pathName);
```
When `pathName` is absent, `entries[pathName]` default-constructs a null
`shared_ptr` and `->locked()` dereferences it — a crash, modelled as `none`.
When present, the child's parent is cleared and the map entry removed, as
one atomic step under both locks. -/
def unlinkEntry (s : FS) (d : Nat) (name : String) : Option FS :=
  match s.find d with
  | some dn =>
    if dn.kind = FileKind.directory then
      match mapLookup name dn.entries with
      | some c =>
        some ⟨updateNode d (eraseEntryUpd name)
               (updateNode c (setParentUpd none) s.files)⟩
      | none => none
    else none
  | none => none

/-- The scan inside `Directory::Handle::getName(target)`: walk the entry
map in its (key-ascending) iteration order, return the first key whose
value is `target`, or `""` if none matches. -/
def getNameAux (target : Nat) : List (String × Nat) → String
  | [] => ""
  | p :: rest => if p.2 = target then p.1 else getNameAux target rest

/-- Embedding of `Directory::Handle::getName(std::shared_ptr<File> target)`. -/
def getName (dn : FileNode) (target : Nat) : String := getNameAux target dn.entries

/-- Embedding of `File::getSize()` as available in `file.h`: it is pure
virtual on `File`;
the only override in this header is `Directory::getSize`, which returns the
fixed block size 4096 and never reads `entries`.  `DataFile` sizes live in
backend code outside this header, hence `none` here. -/
def getSize (f : FileNode) : Option Nat :=
  match f.kind with
  | FileKind.directory => some 4096
  | _ => none

/-- Embedding of `Directory::Handle::getNumEntries()`. -/
def getNumEntries (dn : FileNode) : Nat := dn.entries.length

/-- Does this node's entry map hold a strong reference to address `c`? -/
def holdsRef (dn : FileNode) (c : Nat) : Bool :=
  dn.entries.any (fun p => p.2 == c)

/-- The number of directories in the graph whose entry map holds a strong
reference to the node at address `c`. -/
def numContainers (s : FS) (c : Nat) : Nat :=
  (s.files.filter (fun p => p.2.kind == FileKind.directory && holdsRef p.2 c)).length

/-- Invariant I1 of the spec, as an executable check: every live node's
`parent` weak-reference is non-empty exactly when exactly one directory's
entry map holds a strong reference to it. -/
def checkI1 (s : FS) : Bool :=
  s.files.all (fun p => p.2.parent.isSome == (numContainers s p.1 == 1))

/-- Embedding of `File::getIno()`: `return (ino_t)this;` — the node's
address cast to the
64-bit `ino_t` (`static_assert(sizeof(this) <= sizeof(ino_t))` guards the
cast).  The state argument records that the method reads no mutable state:
the result is a function of the address alone. -/
def getIno (_s : FS) (addr : Nat) : Nat := addr % 2 ^ 64

/-- The width of a wasm32 pointer: addresses are below `2 ^ ptrBits`. -/
def ptrBits : Nat := 32

/-!
The `SyncToAsync` bridge (`system/lib/sync_to_async.h`).  The mutex-protected
code regions become atomic transitions of a labelled step relation: every
interval during which a thread holds `mutex` (including the interval a
condition-variable wait ends with, since `wait` reacquires the lock before
its predicate is rechecked) is a single step.
-/

/-- The `State` enum of `SyncToAsync`. -/
inductive BState where
  | uninitialized
  | waiting
  | workAvailable
  | shouldExit
deriving DecidableEq, Repr

/-- Where the dedicated worker thread is in its code.
`starting` is `threadMain` before the first `threadIter`; `idle` is the
`condition.wait` inside `threadIter`; `running i` is executing invoker `i`'s
work function (between reading `parent->work` and the `resume` call);
`scheduled` is after `resume` ran `emscripten_async_call(threadIter, ...)`
but before that `threadIter` iteration begins; `exited` is `pthread_exit`. -/
inductive WorkerPhase where
  | starting
  | idle
  | running (i : Nat)
  | scheduled
  | exited
deriving DecidableEq, Repr

/-- Where an invoking thread `i` is inside `SyncToAsync::invoke`.
`outside` is not in `invoke`; `entering` is waiting to observe
`state == Waiting` with the lock held; `waitingDone workID` is after
submitting, in `condition.wait(lock, [&]{ return workCount > workID; })`;
`returned` is after `invoke` returned. -/
inductive IPhase where
  | outside
  | entering
  | waitingDone (workID : Nat)
  | returned
deriving DecidableEq, Repr

/-- A configuration of one bridge instance together with its caller threads:
the `state`, `workCount` and `work` members, the worker's position, and
each invoker thread's position (indexed by `Nat`). -/
structure Config where
  bstate : BState
  workCount : Nat
  pending : Option Nat
  worker : WorkerPhase
  invokers : Nat → IPhase

/-- One atomic step of the bridge.  Each constructor is one lock-protected
region of `sync_to_async.h`:
* `callInvoke`: thread `i` calls `invoke` (before acquiring the lock);
* `submit`: `invoke`'s critical section once `state == Waiting` holds —
  `assert(state == Waiting); uint64_t workID = workCount; work = newWork;
  state = WorkAvailable; condition.notify_all();` then wait on
  `workCount > workID`;
* `startup`: `threadMain` locks, notifies the constructor, and schedules
  `threadIter`;
* `iter`: the top of `threadIter` — `parent->state = Waiting;` then wait;
* `take`: `threadIter` wakes with `state == WorkAvailable`, reads
  `parent->work`, installs `resume`, and calls `work(&parent->resume)`;
* `resume`: the work item fires its resume callback —
  `parent->workCount++; condition.notify_all();
  emscripten_async_call(threadIter, arg, 0);`;
* `finish`: invoker `i`'s `condition.wait` predicate `workCount > workID`
  holds, so `invoke` returns;
* `destroy`: the destructor — `assert(state == Waiting); state = ShouldExit;
  condition.notify_one();`;
* `exitWorker`: `threadIter` wakes with `state == ShouldExit` and calls
  `pthread_exit(0)`. -/
inductive Step : Config → Config → Prop where
  | callInvoke (c : Config) (i : Nat) (h : c.invokers i = IPhase.outside) :
      Step c { c with invokers := Function.update c.invokers i IPhase.entering }
  | submit (c : Config) (i : Nat) (h : c.invokers i = IPhase.entering)
      (hw : c.bstate = BState.waiting) :
      Step c { c with
        bstate := BState.workAvailable,
        pending := some i,
        invokers := Function.update c.invokers i (IPhase.waitingDone c.workCount) }
  | startup (c : Config) (h : c.worker = WorkerPhase.starting) :
      Step c { c with worker := WorkerPhase.scheduled }
  | iter (c : Config) (h : c.worker = WorkerPhase.scheduled) :
      Step c { c with bstate := BState.waiting, worker := WorkerPhase.idle }
  | take (c : Config) (i : Nat) (h : c.bstate = BState.workAvailable)
      (hp : c.pending = some i) (hw : c.worker = WorkerPhase.idle) :
      Step c { c with worker := WorkerPhase.running i }
  | resume (c : Config) (i : Nat) (h : c.worker = WorkerPhase.running i) :
      Step c { c with workCount := c.workCount + 1, worker := WorkerPhase.scheduled }
  | finish (c : Config) (i : Nat) (workID : Nat)
      (h : c.invokers i = IPhase.waitingDone workID) (hc : workID < c.workCount) :
      Step c { c with invokers := Function.update c.invokers i IPhase.returned }
  | destroy (c : Config) (h : c.bstate = BState.waiting) :
      Step c { c with bstate := BState.shouldExit }
  | exitWorker (c : Config) (h : c.bstate = BState.shouldExit)
      (hw : c.worker = WorkerPhase.idle) :
      Step c { c with worker := WorkerPhase.exited }

/-!
Path resolution.  Only `splitPath`/`getParsedPath`/`getDir` declarations are
in `file.h`; their implementation file is not part of this source tree, so
the resolver is modelled from the spec (§4.2) and from the contract comments
in `file.h`.
-/

/-- The POSIX error codes the front end observes. -/
inductive Errno where
  | EEXIST
  | ENOTDIR
  | EISDIR
  | ENOENT
  | EINVAL
  | EBADF
deriving DecidableEq, Repr

/-- Splitting helper: walk the characters, `cur` accumulating the current
component in reverse; a `'/'` ends the component, and empty components are
dropped. -/
def splitPathAux : List Char → List Char → List String
  | [], cur => if cur.isEmpty then [] else [String.mk cur.reverse]
  | ch :: rest, cur =>
    if ch = '/' then
      if cur.isEmpty then splitPathAux rest []
      else String.mk cur.reverse :: splitPathAux rest []
    else splitPathAux rest (ch :: cur)

/-- Modelled from the spec: `splitPath` — "Return a vector of the
'/'-delimited components of a path" (file.h); "component separators are
collapsed; empty components from duplicate separators or a trailing
separator are ignored for traversal" (§4.2).  The absolute/relative marker
is not needed here: resolution below always starts from the given root. -/
def splitPath (pathname : String) : List String :=
  splitPathAux pathname.data []

/-- Modelled from the spec: the directory walk of `getDir` (implementation
not under the source tree) — "walk each component: lock the current
directory, look up the next component", failing with "no such entry" when a
component is absent and "not a directory" when a non-terminal component
resolves to a non-directory node (§4.2). -/
def walkDir (s : FS) (cur : Nat) : List String → Except Errno Nat
  | [] =>
    match s.find cur with
    | some f => if f.kind = FileKind.directory then Except.ok cur else Except.error Errno.ENOTDIR
    | none => Except.error Errno.ENOENT
  | comp :: rest =>
    match s.find cur with
    | some f =>
      if f.kind = FileKind.directory then
        match mapLookup comp f.entries with
        | some nxt => walkDir s nxt rest
        | none => Except.error Errno.ENOENT
      else Except.error Errno.ENOTDIR
    | none => Except.error Errno.ENOENT

/-- Modelled from the spec: `getParsedPath` (implementation not under the
source tree) — "a wholly empty pathname is a distinct error", reported as
invalid-argument (§4.2, Scenario E); otherwise resolve the parent directory
through all but the last component and look the last component up in it,
a missing final child being `none` rather than an error (§4.2). -/
def getParsedPath (s : FS) (root : Nat) (pathname : String) :
    Except Errno (Nat × Option Nat) :=
  if pathname = "" then Except.error Errno.EINVAL
  else
    match h : splitPath pathname with
    | [] => Except.ok (root, some root)
    | _ :: _ =>
      let last := (splitPath pathname).getLast (by simp [h])
      match walkDir s root (splitPath pathname).dropLast with
      | Except.ok parent =>
        match s.find parent with
        | some pn => Except.ok (parent, mapLookup last pn.entries)
        | none => Except.error Errno.ENOENT
      | Except.error e => Except.error e

/-!
Definitions used by the theorems below: an operation language over the
directory tree, the entry-map sortedness invariant, and concrete states.
-/

/-- A directory-tree mutation: one call to `setEntry` or `unlinkEntry`.
`apply` runs it when its asserts pass and leaves the state unchanged
otherwise (an aborted program mutates nothing further). -/
inductive DirOp where
  | set (d : Nat) (name : String) (c : Nat)
  | unlink (d : Nat) (name : String)

def applyOp (s : FS) : DirOp → FS
  | DirOp.set d nm c => (setEntry s d nm c).getD s
  | DirOp.unlink d nm => (unlinkEntry s d nm).getD s

def applyOps (s : FS) : List DirOp → FS
  | [] => s
  | op :: rest => applyOps (applyOp s op) rest

/-- Representation invariant of the `std::map`: keys strictly ascending. -/
def entriesSorted (l : List (String × Nat)) : Prop :=
  List.Pairwise (fun a b => a.1 < b.1) l

/-- Construction of a bare node with zeroed metadata. -/
def mkNode (k : FileKind) (par : Option Nat) (es : List (String × Nat)) : FileNode :=
  ⟨k, 0, 0, 0, 0, par, es⟩

def c2s0 : FS := ⟨[(1, mkNode .directory none [("a", 2)]),
                   (2, mkNode .dataFile (some 1) []),
                   (3, mkNode .dataFile none [])]⟩

def c2s1 : FS := ⟨[(1, mkNode .directory none [("a", 3)]),
                   (2, mkNode .dataFile (some 1) []),
                   (3, mkNode .dataFile (some 1) [])]⟩

/-- A two-node state: directory 1 (empty) and an unlinked data file 2. -/
def w1s : FS := ⟨[(1, mkNode FileKind.directory none []),
                  (2, mkNode FileKind.dataFile none [])]⟩

/-- The state after linking file 2 into directory 1 under the name "f". -/
def w1s2 : FS := ⟨[(1, mkNode FileKind.directory none [("f", 2)]),
                   (2, mkNode FileKind.dataFile (some 1) [])]⟩

/-- A directory with one entry, for exercising `getName`. -/
def w10node : FileNode := mkNode FileKind.directory none [("a", 5)]

/-- A bridge configuration with the worker about to fire invoker 0's resume. -/
def w4a : Config :=
  ⟨BState.workAvailable, 0, some 0, WorkerPhase.running 0, fun _ => IPhase.waitingDone 0⟩

/-- The configuration after the resume callback of `w4a` fires. -/
def w4b : Config :=
  { w4a with workCount := w4a.workCount + 1, worker := WorkerPhase.scheduled }

/-- A bridge configuration in the `Waiting` state with invoker 0 entering. -/
def w5a : Config :=
  ⟨BState.waiting, 0, none, WorkerPhase.idle, fun _ => IPhase.entering⟩

/-- The configuration after invoker 0 submits its work from `w5a`. -/
def w5b : Config :=
  { w5a with
    bstate := BState.workAvailable,
    pending := some 0,
    invokers := Function.update w5a.invokers 0 (IPhase.waitingDone w5a.workCount) }

/-!
Supporting lemmas.
-/

lemma setParentUpd_parent (p : Option Nat) (f : FileNode) :
    (setParentUpd p f).parent = p := rfl

lemma setParentUpd_entries (p : Option Nat) (f : FileNode) :
    (setParentUpd p f).entries = f.entries := rfl

lemma setParentUpd_kind (p : Option Nat) (f : FileNode) :
    (setParentUpd p f).kind = f.kind := rfl

lemma insertEntryUpd_entries (nm : String) (c : Nat) (f : FileNode) :
    (insertEntryUpd nm c f).entries = mapInsert nm c f.entries := rfl

lemma insertEntryUpd_kind (nm : String) (c : Nat) (f : FileNode) :
    (insertEntryUpd nm c f).kind = f.kind := rfl

lemma eraseEntryUpd_kind (nm : String) (f : FileNode) :
    (eraseEntryUpd nm f).kind = f.kind := rfl

lemma lookupNode_updateNode_self (i : Nat) (g : FileNode → FileNode)
    (l : List (Nat × FileNode)) :
    lookupNode i (updateNode i g l) = (lookupNode i l).map g := by
  induction l with
  | nil => rfl
  | cons p rest ih =>
    by_cases h : p.1 = i
    · simp [updateNode, lookupNode, h]
    · simp [updateNode, lookupNode, h, ih]

lemma lookupNode_updateNode_ne (i j : Nat) (g : FileNode → FileNode)
    (l : List (Nat × FileNode)) (hne : j ≠ i) :
    lookupNode j (updateNode i g l) = lookupNode j l := by
  have hij : i ≠ j := fun hh => hne hh.symm
  induction l with
  | nil => rfl
  | cons p rest ih =>
    by_cases h : p.1 = i
    · simp [updateNode, lookupNode, h, hij]
    · by_cases h2 : p.1 = j
      · simp [updateNode, lookupNode, h, h2, hne, hij]
      · simp [updateNode, lookupNode, h, h2, ih]

lemma mapLookup_mapInsert_self (k : String) (v : Nat) (l : List (String × Nat)) :
    mapLookup k (mapInsert k v l) = some v := by
  induction l with
  | nil => simp [mapInsert, mapLookup]
  | cons p rest ih =>
    by_cases h1 : k < p.1
    · simp [mapInsert, mapLookup, h1]
    · by_cases h2 : k = p.1
      · simp [mapInsert, mapLookup, h1, h2]
      · have h3 : p.1 ≠ k := fun hh => h2 hh.symm
        simp [mapInsert, mapLookup, h1, h2, h3, ih]

lemma setEntry_inv {s : FS} {d : Nat} {nm : String} {c : Nat} {s2 : FS}
    (h : setEntry s d nm c = some s2) :
    ∃ dn cn, s.find d = some dn ∧ s.find c = some cn ∧
      dn.kind = FileKind.directory ∧ cn.parent = none ∧
      s2 = ⟨updateNode c (setParentUpd (some d))
             (updateNode d (insertEntryUpd nm c) s.files)⟩ := by
  unfold setEntry at h
  cases hd : s.find d with
  | none => rw [hd] at h; cases h
  | some dn =>
    cases hc : s.find c with
    | none => rw [hd, hc] at h; cases h
    | some cn =>
      rw [hd, hc] at h
      dsimp only at h
      by_cases h1 : dn.kind = FileKind.directory
      · by_cases h2 : cn.parent = none
        · refine ⟨dn, cn, rfl, rfl, h1, h2, ?_⟩
          rw [if_pos h1, if_pos h2] at h
          exact (Option.some_inj.mp h).symm
        · rw [if_pos h1, if_neg h2] at h; cases h
      · rw [if_neg h1] at h; cases h

lemma unlinkEntry_inv {s : FS} {d : Nat} {nm : String} {s2 : FS}
    (h : unlinkEntry s d nm = some s2) :
    ∃ dn c, s.find d = some dn ∧ dn.kind = FileKind.directory ∧
      mapLookup nm dn.entries = some c ∧
      s2 = ⟨updateNode d (eraseEntryUpd nm)
             (updateNode c (setParentUpd none) s.files)⟩ := by
  unfold unlinkEntry at h
  cases hd : s.find d with
  | none => rw [hd] at h; cases h
  | some dn =>
    rw [hd] at h
    dsimp only at h
    by_cases h1 : dn.kind = FileKind.directory
    · rw [if_pos h1] at h
      cases hl : mapLookup nm dn.entries with
      | none => rw [hl] at h; cases h
      | some c =>
        rw [hl] at h
        exact ⟨dn, c, rfl, h1, hl, (Option.some_inj.mp h).symm⟩
    · rw [if_neg h1] at h; cases h

lemma mapInsert_head (k : String) (v w : Nat) (t : List (String × Nat)) :
    mapInsert k v ((k, w) :: t) = (k, v) :: t := by
  simp [mapInsert, lt_irrefl]

lemma lookupNode_updateNode_kind (i j : Nat) (g : FileNode → FileNode)
    (hg : ∀ x, (g x).kind = x.kind) (l : List (Nat × FileNode)) :
    (lookupNode j (updateNode i g l)).map FileNode.kind
      = (lookupNode j l).map FileNode.kind := by
  by_cases h : j = i
  · subst h
    rw [lookupNode_updateNode_self]
    cases lookupNode j l with
    | none => rfl
    | some x => simp [hg x]
  · rw [lookupNode_updateNode_ne i j g l h]

lemma applyOp_kind (s : FS) (op : DirOp) (j : Nat) :
    ((applyOp s op).find j).map FileNode.kind = (s.find j).map FileNode.kind := by
  cases op with
  | set d nm c =>
    cases hs : setEntry s d nm c with
    | none => simp [applyOp, hs]
    | some s2 =>
      obtain ⟨dn, cn, _, _, _, _, hs2⟩ := setEntry_inv hs
      simp only [applyOp, hs, Option.getD_some]
      rw [hs2]
      unfold FS.find
      dsimp only
      rw [lookupNode_updateNode_kind _ _ _ (fun x => setParentUpd_kind _ x),
          lookupNode_updateNode_kind _ _ _ (fun x => insertEntryUpd_kind nm c x)]
  | unlink d nm =>
    cases hs : unlinkEntry s d nm with
    | none => simp [applyOp, hs]
    | some s2 =>
      obtain ⟨dn, c, _, _, _, hs2⟩ := unlinkEntry_inv hs
      simp only [applyOp, hs, Option.getD_some]
      rw [hs2]
      unfold FS.find
      dsimp only
      rw [lookupNode_updateNode_kind _ _ _ (fun x => eraseEntryUpd_kind nm x),
          lookupNode_updateNode_kind _ _ _ (fun x => setParentUpd_kind none x)]

lemma applyOps_kind (ops : List DirOp) (s : FS) (j : Nat) :
    ((applyOps s ops).find j).map FileNode.kind = (s.find j).map FileNode.kind := by
  induction ops generalizing s with
  | nil => rfl
  | cons op rest ih => rw [applyOps, ih, applyOp_kind]

lemma getNameAux_not_found (target : Nat) (l : List (String × Nat))
    (h : ∀ p ∈ l, p.2 ≠ target) : getNameAux target l = "" := by
  induction l with
  | nil => rfl
  | cons p rest ih =>
    have hp : p.2 ≠ target := h p (List.mem_cons_self p rest)
    rw [getNameAux, if_neg hp]
    exact ih (fun q hq => h q (List.mem_cons_of_mem p hq))

lemma getNameAux_is_match (target : Nat) (l : List (String × Nat))
    (h : ∃ p ∈ l, p.2 = target) :
    ∃ p ∈ l, p.1 = getNameAux target l ∧ p.2 = target := by
  induction l with
  | nil => obtain ⟨p, hp, _⟩ := h; cases hp
  | cons p rest ih =>
    by_cases hp : p.2 = target
    · exact ⟨p, List.mem_cons_self p rest, by rw [getNameAux, if_pos hp], hp⟩
    · obtain ⟨q, hq, hqt⟩ := h
      rcases List.mem_cons.mp hq with hqp | hqr
      · exact absurd (hqp ▸ hqt) hp
      · obtain ⟨r, hr, hr1, hr2⟩ := ih ⟨q, hqr, hqt⟩
        exact ⟨r, List.mem_cons_of_mem p hr,
          by rw [getNameAux, if_neg hp]; exact hr1, hr2⟩

lemma getNameAux_min (target : Nat) (l : List (String × Nat))
    (hs : entriesSorted l) (q : String × Nat) (hq : q ∈ l) (hqt : q.2 = target) :
    getNameAux target l ≤ q.1 := by
  induction l with
  | nil => cases hq
  | cons p rest ih =>
    simp only [entriesSorted, List.pairwise_cons] at hs
    by_cases hp : p.2 = target
    · rw [getNameAux, if_pos hp]
      rcases List.mem_cons.mp hq with hqp | hqr
      · rw [hqp]
      · exact le_of_lt (hs.1 q hqr)
    · rw [getNameAux, if_neg hp]
      rcases List.mem_cons.mp hq with hqp | hqr
      · exact absurd (hqp ▸ hqt) hp
      · exact ih hs.2 hqr

lemma mapLookup_getNameAux (target : Nat) (l : List (String × Nat))
    (hs : entriesSorted l) (h : ∃ p ∈ l, p.2 = target) :
    mapLookup (getNameAux target l) l = some target := by
  induction l with
  | nil => obtain ⟨p, hp, _⟩ := h; cases hp
  | cons p rest ih =>
    simp only [entriesSorted, List.pairwise_cons] at hs
    by_cases hp : p.2 = target
    · rw [getNameAux, if_pos hp, mapLookup, if_pos rfl, hp]
    · have hrest : ∃ q ∈ rest, q.2 = target := by
        obtain ⟨q, hq, hqt⟩ := h
        rcases List.mem_cons.mp hq with hqp | hqr
        · exact absurd (hqp ▸ hqt) hp
        · exact ⟨q, hqr, hqt⟩
      obtain ⟨r, hr, hr1, _⟩ := getNameAux_is_match target rest hrest
      have hlt : p.1 < getNameAux target rest := hr1 ▸ hs.1 r hr
      rw [getNameAux, if_neg hp, mapLookup, if_neg (ne_of_lt hlt)]
      exact ih hs.2 hrest

/-- C1: whenever `setEntry(name, child)` on a locked directory handle of `D`
completes (its asserts passing), the child had no parent beforehand — the
assert enforces the precondition — and afterwards `D` entry map sends
`name` to the child while the child parent reference resolves to `D`;
both sides are updated in the one atomic dual-lock step. -/
theorem setEntry_links (s : FS) (d : Nat) (nm : String) (c : Nat) (s2 : FS)
    (h : setEntry s d nm c = some s2) :
    (∃ cn, s.find c = some cn ∧ cn.parent = none) ∧
    (∃ dn2, s2.find d = some dn2 ∧ mapLookup nm dn2.entries = some c) ∧
    (∃ cn2, s2.find c = some cn2 ∧ cn2.parent = some d) := by
  obtain ⟨dn, cn, hd, hc, hkind, hpar, hs2⟩ := setEntry_inv h
  have hX : lookupNode d (updateNode d (insertEntryUpd nm c) s.files)
      = some (insertEntryUpd nm c dn) := by
    rw [lookupNode_updateNode_self]
    unfold FS.find at hd
    rw [hd]
    rfl
  refine ⟨⟨cn, hc, hpar⟩, ?_, ?_⟩
  · by_cases hdc : d = c
    · have hfind : s2.find d
          = some (setParentUpd (some d) (insertEntryUpd nm c dn)) := by
        rw [hs2]
        unfold FS.find
        dsimp only
        rw [← hdc] at hX
        rw [← hdc, lookupNode_updateNode_self, hX]
        rfl
      exact ⟨_, hfind, by
        rw [setParentUpd_entries, insertEntryUpd_entries]
        exact mapLookup_mapInsert_self nm c dn.entries⟩
    · have hfind : s2.find d = some (insertEntryUpd nm c dn) := by
        rw [hs2]
        unfold FS.find
        dsimp only
        rw [lookupNode_updateNode_ne c d _ _ hdc, hX]
      exact ⟨_, hfind, by
        rw [insertEntryUpd_entries]
        exact mapLookup_mapInsert_self nm c dn.entries⟩
  · by_cases hdc : d = c
    · have hfind : s2.find c
          = some (setParentUpd (some d) (insertEntryUpd nm c dn)) := by
        rw [hs2]
        unfold FS.find
        dsimp only
        rw [← hdc] at hX
        rw [lookupNode_updateNode_self, ← hdc, hX]
        rfl
      exact ⟨_, hfind, setParentUpd_parent _ _⟩
    · have hfind : s2.find c = some (setParentUpd (some d) cn) := by
        rw [hs2]
        unfold FS.find
        dsimp only
        rw [lookupNode_updateNode_self,
            lookupNode_updateNode_ne d c _ _ (fun hh => hdc hh.symm)]
        unfold FS.find at hc
        rw [hc]
        rfl
      exact ⟨_, hfind, setParentUpd_parent _ _⟩

/-- Witness for C1: link file 2 into the empty directory 1 under "f". -/
theorem setEntry_links_witness :
    setEntry w1s 1 "f" 2 = some w1s2 ∧
    ((∃ cn, w1s.find 2 = some cn ∧ cn.parent = none) ∧
     (∃ dn2, w1s2.find 1 = some dn2 ∧ mapLookup "f" dn2.entries = some 2) ∧
     (∃ cn2, w1s2.find 2 = some cn2 ∧ cn2.parent = some 1)) :=
  ⟨rfl, setEntry_links w1s 1 "f" 2 w1s2 rfl⟩

/-- C2, failing input: in a state satisfying invariant I1, calling
`setEntry` with a name that already maps to a different child succeeds (the
assert checks only the inserted child), yet the displaced child keeps its
stale parent reference while no directory contains it any more — I1 is
broken, contradicting the claim that every `setEntry` preserves it. -/
theorem setEntry_breaks_I1 :
    checkI1 c2s0 = true ∧ setEntry c2s0 1 "a" 3 = some c2s1 ∧ checkI1 c2s1 = false := by
  refine ⟨rfl, ?_, rfl⟩
  have h0 : setEntry c2s0 1 "a" 3
      = some ⟨updateNode 3 (setParentUpd (some 1))
               (updateNode 1 (insertEntryUpd "a" 3) c2s0.files)⟩ := rfl
  rw [h0]
  simp [c2s0, c2s1, mkNode, updateNode, insertEntryUpd, setParentUpd, mapInsert_head]

/-- C9: `unlinkEntry(name)` on a locked directory handle is safe exactly
under the unstated precondition that `name` is currently mapped: a present
name yields a defined result (a valid child is dereferenced), while an
absent name default-constructs a null entry and dereferences it (modelled
as `none`). -/
theorem unlinkEntry_requires_entry (s : FS) (d : Nat) (nm : String) (dn : FileNode)
    (h1 : s.find d = some dn) (h2 : dn.kind = FileKind.directory) :
    ((mapLookup nm dn.entries).isSome → (unlinkEntry s d nm).isSome) ∧
    (mapLookup nm dn.entries = none → unlinkEntry s d nm = none) := by
  unfold unlinkEntry
  rw [h1]
  dsimp only
  rw [if_pos h2]
  constructor
  · intro hs
    cases hl : mapLookup nm dn.entries with
    | none => rw [hl] at hs; cases hs
    | some c => rfl
  · intro hn
    rw [hn]

/-- Witness for C9: directory 1 of `w1s2` maps "f", and unlinking is
defined there. -/
theorem unlinkEntry_requires_entry_witness :
    w1s2.find 1 = some (mkNode FileKind.directory none [("f", 2)]) ∧
    (mkNode FileKind.directory none [("f", 2)]).kind = FileKind.directory ∧
    (((mapLookup "f" (mkNode FileKind.directory none [("f", 2)]).entries).isSome →
        (unlinkEntry w1s2 1 "f").isSome) ∧
     (mapLookup "f" (mkNode FileKind.directory none [("f", 2)]).entries = none →
        unlinkEntry w1s2 1 "f" = none)) :=
  ⟨rfl, rfl, unlinkEntry_requires_entry w1s2 1 "f"
    (mkNode FileKind.directory none [("f", 2)]) rfl rfl⟩

/-- C7: a directory node size query returns the fixed constant 4096 after
any sequence of entry insertions and removals — directory size never
reflects content. -/
theorem directory_size_fixed (ops : List DirOp) (s : FS) (d : Nat) (dn : FileNode)
    (h1 : s.find d = some dn) (h2 : dn.kind = FileKind.directory) :
    ∃ dn2, (applyOps s ops).find d = some dn2 ∧ getSize dn2 = some 4096 := by
  have hk : ((applyOps s ops).find d).map FileNode.kind = some FileKind.directory := by
    rw [applyOps_kind, h1]
    simpa using h2
  cases hfind : (applyOps s ops).find d with
  | none => rw [hfind] at hk; cases hk
  | some dn2 =>
    rw [hfind] at hk
    refine ⟨dn2, rfl, ?_⟩
    have : dn2.kind = FileKind.directory := by simpa using hk
    unfold getSize
    rw [this]

/-- Witness for C7: directory 1 still reports 4096 after an insert and an
unlink. -/
theorem directory_size_fixed_witness :
    w1s.find 1 = some (mkNode FileKind.directory none []) ∧
    (mkNode FileKind.directory none []).kind = FileKind.directory ∧
    ∃ dn2, (applyOps w1s [DirOp.set 1 "f" 2, DirOp.unlink 1 "f"]).find 1 = some dn2 ∧
      getSize dn2 = some 4096 :=
  ⟨rfl, rfl, directory_size_fixed [DirOp.set 1 "f" 2, DirOp.unlink 1 "f"] w1s 1
    (mkNode FileKind.directory none []) rfl rfl⟩

/-- C10: on a well-formed (key-sorted) entry map, `getName(target)` returns
a name actually mapped to `target` whenever `target` is among the children —
and the lexicographically smallest such name, since the scan follows the
map ascending iteration order — and returns the empty string when `target`
is not a child; it is a total function that cannot fail. -/
theorem getName_spec (dn : FileNode) (target : Nat)
    (hs : entriesSorted dn.entries) :
    ((∃ p ∈ dn.entries, p.2 = target) →
        mapLookup (getName dn target) dn.entries = some target ∧
        ∀ p ∈ dn.entries, p.2 = target → getName dn target ≤ p.1) ∧
    ((∀ p ∈ dn.entries, p.2 ≠ target) → getName dn target = "") := by
  refine ⟨fun hex => ⟨?_, ?_⟩, fun hno => ?_⟩
  · exact mapLookup_getNameAux target dn.entries hs hex
  · exact fun p hp hpt => getNameAux_min target dn.entries hs p hp hpt
  · exact getNameAux_not_found target dn.entries hno

/-- Witness for C10: in a one-entry directory the name "a" is returned. -/
theorem getName_spec_witness :
    entriesSorted w10node.entries ∧
    (((∃ p ∈ w10node.entries, p.2 = 5) →
        mapLookup (getName w10node 5) w10node.entries = some 5 ∧
        ∀ p ∈ w10node.entries, p.2 = 5 → getName w10node 5 ≤ p.1) ∧
     ((∀ p ∈ w10node.entries, p.2 ≠ 5) → getName w10node 5 = "")) :=
  ⟨by simp [entriesSorted, w10node, mkNode],
   getName_spec w10node 5 (by simp [entriesSorted, w10node, mkNode])⟩

/-- C8: `getIno` depends only on the node address, so it returns the same
value on every call during the node lifetime regardless of state changes,
and on any two distinct simultaneously-live nodes (distinct addresses,
which fit in a pointer and hence in `ino_t`) it returns distinct values. -/
theorem getIno_stable_injective :
    (∀ (s1 s2 : FS) (addr : Nat), getIno s1 addr = getIno s2 addr) ∧
    (∀ (s : FS) (a b : Nat), a < 2 ^ ptrBits → b < 2 ^ ptrBits → a ≠ b →
      getIno s a ≠ getIno s b) := by
  constructor
  · intro _ _ _
    rfl
  · intro s a b ha hb hne
    have hlt : (2 : Nat) ^ ptrBits ≤ 2 ^ 64 := by
      unfold ptrBits
      norm_num
    unfold getIno
    rw [Nat.mod_eq_of_lt (lt_of_lt_of_le ha hlt),
        Nat.mod_eq_of_lt (lt_of_lt_of_le hb hlt)]
    exact hne

/-- Witness for C8 at addresses 7 and 8. -/
theorem getIno_stable_injective_witness :
    getIno w1s 7 = getIno w1s2 7 ∧
    (7 < 2 ^ ptrBits ∧ 8 < 2 ^ ptrBits ∧ (7 : Nat) ≠ 8 ∧
      getIno w1s 7 ≠ getIno w1s 8) :=
  ⟨getIno_stable_injective.1 w1s w1s2 7, by decide, by decide, by decide,
   getIno_stable_injective.2 w1s 7 8 (by decide) (by decide) (by decide)⟩

/-- C6: resolving the empty pathname fails with the invalid-argument error
in every state, while a pathname that merely has no components after
splitting (such as "/") resolves successfully — the empty path is a
distinct error, not a no-component path. -/
theorem empty_path_einval (s : FS) (root : Nat) :
    getParsedPath s root "" = Except.error Errno.EINVAL ∧
    getParsedPath s root "/" = Except.ok (root, some root) := by
  constructor
  · rfl
  · rfl

/-- C4: along every step of the bridge, the completion counter `workCount`
never decreases; it changes only by exactly one, and only when a running
work item resume callback fires; each `invoke` captures the counter current
value at the moment it submits its work; and an `invoke` can return only
once the counter strictly exceeds its captured value. -/
theorem workCount_monotone (c c2 : Config) (i workID : Nat) (h : Step c c2) :
    c.workCount ≤ c2.workCount ∧
    (c2.workCount = c.workCount ∨
      (c2.workCount = c.workCount + 1 ∧
        ∃ j, c.worker = WorkerPhase.running j ∧ c2.worker = WorkerPhase.scheduled)) ∧
    (c.invokers i = IPhase.entering →
      c2.invokers i = IPhase.waitingDone workID → workID = c.workCount) ∧
    (c.invokers i = IPhase.waitingDone workID →
      c2.invokers i = IPhase.returned → workID < c.workCount) := by
  cases h with
  | callInvoke j hj =>
    refine ⟨le_refl _, Or.inl rfl, ?_, ?_⟩
    all_goals (
      intro h1 h2
      dsimp only at h2
      by_cases hij : i = j
      · subst hij
        rw [Function.update_same] at h2
        cases h2
      · rw [Function.update_noteq hij] at h2
        rw [h1] at h2
        cases h2)
  | submit j hj hw =>
    refine ⟨le_refl _, Or.inl rfl, ?_, ?_⟩
    · intro h1 h2
      dsimp only at h2
      by_cases hij : i = j
      · subst hij
        rw [Function.update_same] at h2
        injection h2 with h3
        exact h3.symm
      · rw [Function.update_noteq hij] at h2
        rw [h1] at h2
        cases h2
    · intro h1 h2
      dsimp only at h2
      by_cases hij : i = j
      · subst hij
        rw [h1] at hj
        cases hj
      · rw [Function.update_noteq hij] at h2
        rw [h1] at h2
        cases h2
  | startup hw =>
    refine ⟨le_refl _, Or.inl rfl, ?_, ?_⟩
    all_goals (intro h1 h2; dsimp only at h2; rw [h1] at h2; cases h2)
  | iter hw =>
    refine ⟨le_refl _, Or.inl rfl, ?_, ?_⟩
    all_goals (intro h1 h2; dsimp only at h2; rw [h1] at h2; cases h2)
  | take j hs hp hw =>
    refine ⟨le_refl _, Or.inl rfl, ?_, ?_⟩
    all_goals (intro h1 h2; dsimp only at h2; rw [h1] at h2; cases h2)
  | resume j hj =>
    refine ⟨Nat.le_succ _, Or.inr ⟨rfl, j, hj, rfl⟩, ?_, ?_⟩
    all_goals (intro h1 h2; dsimp only at h2; rw [h1] at h2; cases h2)
  | finish j workID2 hj hc =>
    refine ⟨le_refl _, Or.inl rfl, ?_, ?_⟩
    · intro h1 h2
      dsimp only at h2
      by_cases hij : i = j
      · subst hij
        rw [Function.update_same] at h2
        cases h2
      · rw [Function.update_noteq hij] at h2
        rw [h1] at h2
        cases h2
    · intro h1 h2
      dsimp only at h2
      by_cases hij : i = j
      · subst hij
        rw [h1] at hj
        injection hj with h3
        rw [h3]
        exact hc
      · rw [Function.update_noteq hij] at h2
        rw [h1] at h2
        cases h2
  | destroy hw =>
    refine ⟨le_refl _, Or.inl rfl, ?_, ?_⟩
    all_goals (intro h1 h2; dsimp only at h2; rw [h1] at h2; cases h2)
  | exitWorker hs hw =>
    refine ⟨le_refl _, Or.inl rfl, ?_, ?_⟩
    all_goals (intro h1 h2; dsimp only at h2; rw [h1] at h2; cases h2)

/-- Witness for C4: the resume step from `w4a` increments the counter. -/
theorem workCount_monotone_witness :
    Step w4a w4b ∧
    (w4a.workCount ≤ w4b.workCount ∧
     (w4b.workCount = w4a.workCount ∨
       (w4b.workCount = w4a.workCount + 1 ∧
         ∃ j, w4a.worker = WorkerPhase.running j ∧ w4b.worker = WorkerPhase.scheduled)) ∧
     (w4a.invokers 0 = IPhase.entering →
       w4b.invokers 0 = IPhase.waitingDone 0 → (0 : Nat) = w4a.workCount) ∧
     (w4a.invokers 0 = IPhase.waitingDone 0 →
       w4b.invokers 0 = IPhase.returned → (0 : Nat) < w4a.workCount)) :=
  ⟨Step.resume w4a 0 rfl, workCount_monotone w4a w4b 0 0 (Step.resume w4a 0 rfl)⟩

/-- C5: along every step of the bridge, the pending-work slot changes only
from a configuration whose state is `Waiting`, and the state becomes
`WorkAvailable` only out of `Waiting` — `invoke` never stores work while
the state is `Uninitialized`, `WorkAvailable`, or `ShouldExit`. -/
theorem work_submitted_only_waiting (c c2 : Config) (h : Step c c2) :
    (c2.pending ≠ c.pending → c.bstate = BState.waiting) ∧
    (c2.bstate = BState.workAvailable →
      c.bstate = BState.waiting ∨ c.bstate = BState.workAvailable) := by
  cases h with
  | callInvoke j hj => exact ⟨fun hne => absurd rfl hne, fun hh => Or.inr hh⟩
  | submit j hj hw => exact ⟨fun _ => hw, fun _ => Or.inl hw⟩
  | startup hw => exact ⟨fun hne => absurd rfl hne, fun hh => Or.inr hh⟩
  | iter hw => exact ⟨fun hne => absurd rfl hne, fun hh => BState.noConfusion hh⟩
  | take j hs hp hw => exact ⟨fun hne => absurd rfl hne, fun hh => Or.inr hh⟩
  | resume j hj => exact ⟨fun hne => absurd rfl hne, fun hh => Or.inr hh⟩
  | finish j workID2 hj hc => exact ⟨fun hne => absurd rfl hne, fun hh => Or.inr hh⟩
  | destroy hw => exact ⟨fun hne => absurd rfl hne, fun hh => BState.noConfusion hh⟩
  | exitWorker hs hw => exact ⟨fun hne => absurd rfl hne, fun hh => Or.inr hh⟩

/-- Witness for C5: the submit step out of the waiting configuration `w5a`. -/
theorem work_submitted_only_waiting_witness :
    Step w5a w5b ∧
    ((w5b.pending ≠ w5a.pending → w5a.bstate = BState.waiting) ∧
     (w5b.bstate = BState.workAvailable →
       w5a.bstate = BState.waiting ∨ w5a.bstate = BState.workAvailable)) :=
  ⟨Step.submit w5a 0 rfl rfl,
   work_submitted_only_waiting w5a w5b (Step.submit w5a 0 rfl rfl)⟩
